import Mathlib

/-!
Verification of the panza-lexer tokenizer (tokens.go).

Strings are modelled as lists of characters.  Go slice expressions are
modelled by bounds-checked operations returning `Option` (a `none`
corresponds to a Go runtime panic).  The recursive matching engine is
modelled with explicit fuel, since its termination is one of the
properties under examination; `Res.out` marks fuel exhaustion and
`Res.panic` marks a runtime slice panic.  Machine integers: the token id
counter is a Go `uint16`, so increments are taken modulo 65536; the
`uint64` position arithmetic in `calcViewR` and `isToken` is modelled by
its effect on the comparisons the code performs, as noted inline.
-/

namespace Panza

/-- Strings as lists of characters. -/
abbrev Str := List Char

/-- Convert a Lean string literal to the list-of-characters model. -/
def s2l (s : String) : Str := s.data

/-- Does `s` start with `sub`?  (Helper for substring search.) -/
def strStarts : Str → Str → Bool
  | _, [] => true
  | [], _ :: _ => false
  | a :: s, b :: t => a == b && strStarts s t

/-- Go `strings.Contains s sub`: `sub` occurs contiguously inside `s`. -/
def strContains : Str → Str → Bool
  | [], sub => strStarts [] sub
  | s@(_ :: s'), sub => strStarts s sub || strContains s' sub

/-- A token signature (`tokenSignature` in the source). -/
abbrev tokenSignature := Str

/-- `tokenSignature.Contains`: the given signature is a substring of this one. -/
def sigContains (ts ots : tokenSignature) : Bool := strContains ts ots

/-- `tokenSignature.Compare`: exact equality of signatures. -/
def sigCompare (ts ots : tokenSignature) : Bool := ts == ots

/-- `TokenKind`: id, human readable name, and character-sequence identity. -/
structure TokenKind where
  Id : Nat
  Name : Str
  Signature : tokenSignature
deriving DecidableEq, Repr

/-- The zero value of `TokenKind` (what a Go map read returns for a missing key). -/
def zeroKind : TokenKind := ⟨0, [], []⟩

/--
The token kind map (`tokenKindMap`).  The Go map together with its
insertion history is modelled as the list of registered kinds in
registration order; a map read takes the last write for a key.
-/
abbrev tokenKindMap := List TokenKind

/-- Go map read `tkm[id]`: the last kind registered under `id`, or the zero value. -/
def mapGet (tkm : tokenKindMap) (id : Nat) : TokenKind :=
  ((tkm.filter (fun k => k.Id == id)).getLast?).getD zeroKind

/-- `tokenKindMap.Ids`: the key set of the map (each registered id once). -/
def mapIds (tkm : tokenKindMap) : List Nat :=
  (tkm.map (fun k => k.Id)).dedup

/--
`tokenKindMap.Find`: ids whose registered signature contains `sig` as a
substring; restricted to `ids` when that list is nonempty, else the whole map.
-/
def mapFind (tkm : tokenKindMap) (sig : tokenSignature) (ids : List Nat) : List Nat :=
  let ids := if ids.length > 0 then ids else mapIds tkm
  ids.filter (fun i => sigContains (mapGet tkm i).Signature sig)

/-- `tokenKindMap.FindEx`: like `mapFind` but requiring exact signature equality. -/
def mapFindEx (tkm : tokenKindMap) (sig : tokenSignature) (ids : List Nat) : List Nat :=
  let ids := if ids.length > 0 then ids else mapIds tkm
  ids.filter (fun i => sigCompare (mapGet tkm i).Signature sig)

/--
The mutable package-level state of the lexer: the next id counter
(`tokenKindId`, a `uint16`), the two running maxima, and the kind map.
-/
structure LexerState where
  tokenKindId : Nat
  tokenKindNameMaxSize : Nat
  tokenKindSignatureMaxSize : Nat
  tokenKinds : tokenKindMap
deriving DecidableEq, Repr

/-- `newKind`: assign the next id (uint16, wrapping), update the maxima. -/
def newKind (st : LexerState) (name : Str) (sig : tokenSignature) :
    TokenKind × LexerState :=
  let id := st.tokenKindId
  let st := { st with tokenKindId := (st.tokenKindId + 1) % 65536 }
  let st :=
    if name.length > st.tokenKindNameMaxSize then
      { st with tokenKindNameMaxSize := name.length } else st
  let st :=
    if sig.length > st.tokenKindSignatureMaxSize then
      { st with tokenKindSignatureMaxSize := sig.length } else st
  (⟨id, name, sig⟩, st)

/-- `tokenKindMap.Add`: make a new kind and store it under its id. -/
def addKind (st : LexerState) (name : Str) (sig : tokenSignature) : LexerState :=
  let p := newKind st name sig
  { p.2 with tokenKinds := p.2.tokenKinds ++ [p.1] }

/-- Go `strings.Index s sub`: index of the first occurrence, or -1. -/
def strIndex : Str → Str → Int
  | s, sub =>
    if strStarts s sub then 0
    else
      match s with
      | [] => -1
      | _ :: s' =>
        let r := strIndex s' sub
        if r < 0 then -1 else r + 1

/-- `findCommentPos`: index of the start of a `#:` comment, or -1. -/
def findCommentPos (s : Str) : Int := strIndex s (s2l "#:")

/-- Go `strings.TrimRight s " "`: drop trailing space characters. -/
def trimRightSpace (s : Str) : Str :=
  (s.reverse.dropWhile (fun c => c == ' ')).reverse

/-- `justifyString`: cut the string at `ind` (when nonnegative) and trim. -/
def justifyString (s : Str) (ind : Int) : Str :=
  if ¬ ind ≥ 0 then s
  else
    let temp := s.take ind.toNat
    if temp == [' ', ' '] then [' ']
    else trimRightSpace temp

/--
The loop of `parseComment`.  Each pass removes the first `#:` comment
marker, so the recomputed position is -1 on the second pass and the loop
runs at most twice; the fuel passed by `parseComment` is therefore never
exhausted.
-/
def parseCommentLoop : Nat → Str → Int → Str
  | 0, temp, _ => temp
  | fuel + 1, temp, ind =>
    if ind ≥ 0 then
      let ind' := findCommentPos temp
      parseCommentLoop fuel (justifyString temp ind') ind'
    else temp

/-- `parseComment`: remove any `#:` comment from the line. -/
def parseComment (line : Str) : Str :=
  parseCommentLoop (line.length + 2) line (findCommentPos line)

/-- Go `strings.SplitN line " " 2`: split around the first space, if any. -/
def splitFirstSpace : Str → Option (Str × Str)
  | [] => none
  | c :: rest =>
    if c == ' ' then some ([], rest)
    else (splitFirstSpace rest).map (fun p => (c :: p.1, p.2))

/-- `parseLine`: the token name and sequence on a declaration line. -/
def parseLine (line : Str) : Str × Str :=
  match splitFirstSpace line with
  | none => ([], [])
  | some (a, b) => (parseComment a, parseComment b)

/-- The initial package state (all counters zero, empty map). -/
def lexerInit : LexerState := ⟨0, 0, 0, []⟩

/-- One iteration of the declaration-file loop of `loadTokens`. -/
def loadStep (st : LexerState) (ln : Str) : LexerState :=
  let p := parseLine ln
  if p.1 == [] then st else addKind st p.1 p.2

/-- The state after the seven explicit reserved registrations of `loadTokens`. -/
def reservedState : LexerState :=
  let st := lexerInit
  let st := addKind st (s2l "WHTSPACE") (s2l " ")
  let st := addKind st (s2l "GENIDEN") (s2l "&IDEN")
  let st := addKind st (s2l "GENTYPE") (s2l "&TYPE")
  let st := addKind st (s2l "GENOBJ") (s2l "&OBJ")
  let st := addKind st (s2l "NEWLINE") (s2l "\n")
  let st := addKind st (s2l "CRETURN") (s2l "\r")
  addKind st (s2l "TABLINE") (s2l "\t")

/--
`loadTokens`, parameterised by the lines of the declaration file: the
seven reserved kinds are registered first, then each declaration line
whose parsed name is nonempty.
-/
def loadTokens (fileLines : List Str) : LexerState :=
  fileLines.foldl loadStep reservedState

/-- Go slice `l[a:b]`; `none` models the runtime panic when out of bounds. -/
def goSlice (l : Str) (a b : Nat) : Option Str :=
  if a ≤ b ∧ b ≤ l.length then some ((l.take b).drop a) else none

/-- Go slice `l[a:]`; `none` models the runtime panic when out of bounds. -/
def goSliceFrom (l : Str) (a : Nat) : Option Str :=
  if a ≤ l.length then some (l.drop a) else none

/--
`calcStep`: `step := maxSize; step = step - (step - len(line))`, over Go
signed ints, then converted to an unsigned position.  The subtraction is
modelled over `Int` exactly as written.
-/
def calcStep (st : LexerState) (line : Str) : Nat :=
  let step : Int := st.tokenKindSignatureMaxSize
  let step := step - (step - line.length)
  step.toNat

/-- `calcView`: the window `line[pos : pos+step]`, clipped at line end. -/
def calcView (line : Str) (pos step : Nat) : Option Str :=
  if pos + step > line.length then goSliceFrom line pos
  else goSlice line pos (pos + step)

/--
`calcViewR`: the backwards window.  Over Go `uint64`, `pos - step` wraps
below zero, so the guard `(pos - step) > 0` holds exactly when
`pos ≠ step`, giving `line[0:0]`; otherwise `line[pos-step : pos]` is
`line[0 : pos]`.
-/
def calcViewR (line : Str) (pos step : Nat) : Option Str :=
  if pos ≠ step then some []
  else goSlice line 0 pos

/--
The shrink loop of `isToken`.  Over Go `uint64`, the break test
`(step - 1) == 0` holds exactly when `step = 1`; when `step = 0` the
decrement wraps to `2^64 - 1` and the following slice `line[:step]` is
out of range (`none`).
-/
def isTokenLoop (st : LexerState) (line : Str) :
    Nat → tokenSignature → Str → List Nat → Option Bool
  | 0, sig, view, mtchs =>
    if mtchs.length == 0 || view == [' '] then none
    else some ((mapFindEx st.tokenKinds sig mtchs).length != 0)
  | 1, sig, view, mtchs =>
    if mtchs.length == 0 || view == [' '] then
      some ((mapFindEx st.tokenKinds sig
        (mapFind st.tokenKinds sig mtchs)).length != 0)
    else some ((mapFindEx st.tokenKinds sig mtchs).length != 0)
  | s + 2, sig, view, mtchs =>
    if mtchs.length == 0 || view == [' '] then
      match goSlice line 0 (s + 1), goSlice line s (s + 1) with
      | some sig', some view' =>
        isTokenLoop st line (s + 1) sig' view' (mapFind st.tokenKinds sig mtchs)
      | _, _ => none
    else some ((mapFindEx st.tokenKinds sig mtchs).length != 0)

/-- `isToken`: does some shrinking prefix of `line` exactly match a signature? -/
def isToken (st : LexerState) (line : Str) : Option Bool :=
  let step := calcStep st line
  match calcViewR line step 1 with
  | none => none
  | some view =>
    let sig := line
    let mtchs := mapFind st.tokenKinds sig []
    isTokenLoop st line step sig view mtchs

/-- Result of a fuelled computation: value, runtime panic, or fuel exhausted. -/
inductive Res (α : Type) where
  | ok : α → Res α
  | panic : Res α
  | out : Res α
deriving DecidableEq, Repr

/--
`findToken`, with explicit fuel bounding the recursion depth.  Mirrors
the Go switch on the size of the candidate id set; `.out` is returned
when the fuel runs out before the recursion bottoms out.
-/
def findTokenGo (st : LexerState) :
    Nat → Str → Nat → List Nat → Res (Nat × tokenSignature)
  | 0, _, _, _ => .out
  | fuel + 1, line, step, ids =>
    match calcView line 0 step with
    | none => .panic
    | some view =>
      let sig := view
      let ids := if ids.length == 0 then mapFind st.tokenKinds sig ids else ids
      if ids.length == 0 then .ok (1, line)
      else if ids.length == 1 then
        match mapFindEx st.tokenKinds sig ids with
        | [] => findTokenGo st fuel line (step + 1) []
        | i :: _ => .ok (i, sig)
      else
        match calcView line step 1 with
        | none => .panic
        | some ahead =>
          match isToken st ahead with
          | none => .panic
          | some b =>
            if !b then
              let ids' := mapFindEx st.tokenKinds sig ids
              let ids'' := if ids'.length == 0 then [1] else ids'
              findTokenGo st fuel line step ids''
            else
              findTokenGo st fuel line (step + 1) ids

/--
The scan loop of `findIdenToken`: grow `view` until a real token starts
immediately after it or the step runs past the end of the line.  `rem`
is a structural bound on the remaining iterations; the loop breaks on
`step + 1 > line.length` first, so with the entry value
`rem = line.length` the zero case is never reached.
-/
def findIdenLoop (st : LexerState) (line : Str) :
    Nat → Nat → Str → Str → Option Str
  | rem, step, view, la =>
    match isToken st la with
    | none => none
    | some true => some view
    | some false =>
      match goSlice line 0 step, goSliceFrom line step with
      | some view', some la' =>
        if step + 1 > line.length then some view'
        else
          match rem with
          | 0 => none
          | r + 1 => findIdenLoop st line r (step + 1) view' la'
      | _, _ => none

/-- `findIdenToken`: the full extent of a generic token. -/
def findIdenToken (st : LexerState) (line : Str) : Option Str :=
  if line.length == 1 then some line
  else
    match goSlice line 0 1, goSliceFrom line 1 with
    | some view, some la => findIdenLoop st line line.length 1 view la
    | _, _ => none

/-- `TokenObject`: a concrete token with its kind and position metadata. -/
structure TokenObject where
  Kind : TokenKind
  LineNo : Nat
  Position : Nat
  Symbol : tokenSignature
deriving DecidableEq, Repr

/-- `TokenKind.New`: build a `TokenObject` from a kind. -/
def TokenKind.New (tk : TokenKind) (lineNo pos : Nat) (symbol : tokenSignature) :
    TokenObject :=
  ⟨tk, lineNo, pos, symbol⟩

/--
The per-line tokenizing loop: while `pos` is inside the line, resolve the
next token at `line[pos:]`, refine generic identifiers, emit the token,
and advance by the matched length.  Fuel bounds the number of loop
iterations; `ftFuel` is handed to each `findTokenGo` call.
-/
def tokenizeLineGo (st : LexerState) (ftFuel : Nat) :
    Nat → Str → Nat → Nat → Res (List TokenObject)
  | 0, _, _, _ => .out
  | fuel + 1, line, lineNo, pos =>
    if pos < line.length then
      match goSliceFrom line pos with
      | none => .panic
      | some rest =>
        match findTokenGo st ftFuel rest 1 [] with
        | .panic => .panic
        | .out => .out
        | .ok (id, sig0) =>
          let osig : Option tokenSignature :=
            if id == 1 then findIdenToken st sig0 else some sig0
          match osig with
          | none => .panic
          | some sig =>
            match tokenizeLineGo st ftFuel fuel line lineNo (pos + sig.length) with
            | .ok toks =>
              .ok ((mapGet st.tokenKinds id).New lineNo (pos + 1) sig :: toks)
            | e => e
    else .ok []

/-- `TokenizeLine`: break one line into tokens (fuelled). -/
def TokenizeLine (st : LexerState) (fuel : Nat) (line : Str) (lineNo : Nat) :
    Res (List TokenObject) :=
  tokenizeLineGo st fuel fuel line lineNo 0

/-- The loop of `TokenizeLines`: line index is the zero-based position. -/
def tokenizeLinesGo (st : LexerState) (fuel : Nat) :
    List Str → Nat → Res (List TokenObject)
  | [], _ => .ok []
  | l :: ls, lineId =>
    match TokenizeLine st fuel l lineId with
    | .ok ts =>
      match tokenizeLinesGo st fuel ls (lineId + 1) with
      | .ok rest => .ok (ts ++ rest)
      | e => e
    | .panic => .panic
    | .out => .out

/-- `TokenizeLines`: tokens of a list of lines, line numbers from 0. -/
def TokenizeLines (st : LexerState) (fuel : Nat) (lines : List Str) :
    Res (List TokenObject) :=
  tokenizeLinesGo st fuel lines 0

/-- The loop of `TokenizeFile`: the counter is incremented before each line. -/
def tokenizeFileGo (st : LexerState) (fuel : Nat) :
    List Str → Nat → Res (List TokenObject)
  | [], _ => .ok []
  | l :: ls, lineNo =>
    let lineNo := lineNo + 1
    match TokenizeLine st fuel l lineNo with
    | .ok ts =>
      match tokenizeFileGo st fuel ls lineNo with
      | .ok rest => .ok (ts ++ rest)
      | e => e
    | .panic => .panic
    | .out => .out

/-- `TokenizeFile`: tokens of the scanned lines of a file, line numbers from 1. -/
def TokenizeFile (st : LexerState) (fuel : Nat) (fileLines : List Str) :
    Res (List TokenObject) :=
  tokenizeFileGo st fuel fileLines 0

/-- The number of declaration lines that `loadTokens` actually registers. -/
def declCount (fileLines : List Str) : Nat :=
  (fileLines.filter (fun ln => !((parseLine ln).1 == []))).length

/--
The kinds registered by the declaration loop of `loadTokens`, starting
from id counter `n` (already reduced modulo 65536): skipped lines add
nothing, kept lines take the current counter as id and advance it.
-/
def declKinds (n : Nat) : List Str → List TokenKind
  | [] => []
  | ln :: ls =>
    let p := parseLine ln
    if p.1 == [] then declKinds n ls
    else ⟨n, p.1, p.2⟩ :: declKinds ((n + 1) % 65536) ls

/-- The seven reserved kinds, ids 0 through 6 in registration order. -/
def reservedKinds : List TokenKind :=
  [⟨0, s2l "WHTSPACE", s2l " "⟩,
   ⟨1, s2l "GENIDEN", s2l "&IDEN"⟩,
   ⟨2, s2l "GENTYPE", s2l "&TYPE"⟩,
   ⟨3, s2l "GENOBJ", s2l "&OBJ"⟩,
   ⟨4, s2l "NEWLINE", s2l "\n"⟩,
   ⟨5, s2l "CRETURN", s2l "\r"⟩,
   ⟨6, s2l "TABLINE", s2l "\t"⟩]

/--
The inspection window as the specification describes it: the minimum of
`maxSignatureLength()` and the length of the given text.  This definition
follows the words of the spec, for comparison with `calcStep`, which is
translated from the source.
-/
def specCalcStep (st : LexerState) (text : Str) : Nat :=
  min st.tokenKindSignatureMaxSize text.length

/-- Map a function over the value of a fuelled result. -/
def mapRes {α β : Type} (f : α → β) : Res α → Res β
  | .ok a => .ok (f a)
  | .panic => .panic
  | .out => .out

/-- Shift a token down one line (the `TokenizeFile` numbering vs `TokenizeLines`). -/
def bumpLine (t : TokenObject) : TokenObject :=
  ⟨t.Kind, t.LineNo + 1, t.Position, t.Symbol⟩

/-- Sequence per-line results, concatenating their token lists in order. -/
def joinRes : List (Res (List TokenObject)) → Res (List TokenObject)
  | [] => .ok []
  | r :: rs =>
    match r with
    | .ok ts =>
      match joinRes rs with
      | .ok rest => .ok (ts ++ rest)
      | e => e
    | .panic => .panic
    | .out => .out

/-- The registry whose declaration file registers only the signature `==`. -/
def regEqOnly : LexerState := loadTokens [s2l "EQEQ =="]

/-- A registry whose declaration file registers `=` and two kinds sharing `==`. -/
def regDup : LexerState :=
  loadTokens [s2l "ASSIGN =", s2l "EQEQ ==", s2l "EQEQ2 =="]

/-- `addKind` appends the new kind, whose id is the current counter value. -/
lemma addKind_tokenKinds (st : LexerState) (name : Str) (sig : tokenSignature) :
    (addKind st name sig).tokenKinds =
      st.tokenKinds ++ [⟨st.tokenKindId, name, sig⟩] := by
  unfold addKind newKind
  dsimp only
  split <;> split <;> rfl

/-- `addKind` advances the uint16 id counter by one, wrapping at 65536. -/
lemma addKind_tokenKindId (st : LexerState) (name : Str) (sig : tokenSignature) :
    (addKind st name sig).tokenKindId = (st.tokenKindId + 1) % 65536 := by
  unfold addKind newKind
  dsimp only
  split <;> split <;> rfl

/-- `declKinds` on a skipped declaration line. -/
lemma declKinds_cons_skip {l : Str} (n : Nat) (ls : List Str)
    (hb : ((parseLine l).1 == []) = true) :
    declKinds n (l :: ls) = declKinds n ls := by
  rw [declKinds]
  rw [hb]
  simp

/-- `declKinds` on a kept declaration line. -/
lemma declKinds_cons_keep {l : Str} (n : Nat) (ls : List Str)
    (hb : ((parseLine l).1 == []) = false) :
    declKinds n (l :: ls) =
      ⟨n, (parseLine l).1, (parseLine l).2⟩ :: declKinds ((n + 1) % 65536) ls := by
  rw [declKinds]
  rw [hb]
  simp

/-- `declCount` on a skipped declaration line. -/
lemma declCount_cons_skip {l : Str} (ls : List Str)
    (hb : ((parseLine l).1 == []) = true) :
    declCount (l :: ls) = declCount ls := by
  unfold declCount
  rw [List.filter_cons, hb]
  rfl

/-- `declCount` on a kept declaration line. -/
lemma declCount_cons_keep {l : Str} (ls : List Str)
    (hb : ((parseLine l).1 == []) = false) :
    declCount (l :: ls) = declCount ls + 1 := by
  unfold declCount
  rw [List.filter_cons, hb]
  simp [List.length_cons]

/--
The declaration loop registers exactly `declKinds`, starting from the
current id counter, after whatever kinds are already present.
-/
lemma foldl_loadStep_tokenKinds :
    ∀ (ls : List Str) (st : LexerState),
      (ls.foldl loadStep st).tokenKinds =
        st.tokenKinds ++ declKinds st.tokenKindId ls := by
  intro ls
  induction ls with
  | nil => intro st; simp [declKinds]
  | cons l ls ih =>
    intro st
    rw [List.foldl_cons]
    cases hb : ((parseLine l).1 == []) with
    | true =>
      have hstep : loadStep st l = st := by simp [loadStep, hb]
      rw [hstep, ih st, declKinds_cons_skip st.tokenKindId ls hb]
    | false =>
      have hstep : loadStep st l = addKind st (parseLine l).1 (parseLine l).2 := by
        simp [loadStep, hb]
      rw [hstep, ih, addKind_tokenKinds, addKind_tokenKindId,
        declKinds_cons_keep st.tokenKindId ls hb, List.append_assoc]
      rfl

/-- The registry built by the loader: reserved kinds, then declared kinds from id 7. -/
lemma loadTokens_tokenKinds (ds : List Str) :
    (loadTokens ds).tokenKinds = reservedKinds ++ declKinds 7 ds := by
  unfold loadTokens
  rw [foldl_loadStep_tokenKinds ds reservedState]
  have h1 : reservedState.tokenKinds = reservedKinds := by decide
  have h2 : reservedState.tokenKindId = 7 := by decide
  rw [h1, h2]

/-- A declaration list that registers nothing contributes no kinds. -/
lemma declKinds_of_declCount_zero :
    ∀ (ls : List Str) (n : Nat), declCount ls = 0 → declKinds n ls = [] := by
  intro ls
  induction ls with
  | nil => intro n _; rfl
  | cons l ls ih =>
    intro n hc
    cases hb : ((parseLine l).1 == []) with
    | true =>
      rw [declKinds_cons_skip n ls hb]
      rw [declCount_cons_skip ls hb] at hc
      exact ih n hc
    | false =>
      rw [declCount_cons_keep ls hb] at hc
      omega

/--
While the id counter does not wrap, every declared kind receives an id in
the window starting at the counter value.
-/
lemma declKinds_id_bounds :
    ∀ (ls : List Str) (n : Nat), n + declCount ls ≤ 65536 →
      ∀ k ∈ declKinds n ls, n ≤ k.Id ∧ k.Id < n + declCount ls := by
  intro ls
  induction ls with
  | nil => intro n _ k hk; simp [declKinds] at hk
  | cons l ls ih =>
    intro n hn k hk
    cases hb : ((parseLine l).1 == []) with
    | true =>
      rw [declCount_cons_skip ls hb] at hn ⊢
      rw [declKinds_cons_skip n ls hb] at hk
      exact ih n hn k hk
    | false =>
      rw [declCount_cons_keep ls hb] at hn ⊢
      rw [declKinds_cons_keep n ls hb] at hk
      rcases List.mem_cons.mp hk with hk | hk
      · subst hk
        refine ⟨Nat.le_refl n, ?_⟩
        show n < n + (declCount ls + 1)
        omega
      · by_cases hw : declCount ls = 0
        · rw [declKinds_of_declCount_zero ls _ hw] at hk
          simp at hk
        · have hmod : (n + 1) % 65536 = n + 1 := by omega
          rw [hmod] at hk
          have := ih (n + 1) (by omega) k hk
          omega

/--
While the id counter does not wrap, the declared ids are strictly
increasing in registration order.
-/
lemma declKinds_pairwise :
    ∀ (ls : List Str) (n : Nat), n + declCount ls ≤ 65536 →
      ((declKinds n ls).map (fun k => k.Id)).Pairwise (· < ·) := by
  intro ls
  induction ls with
  | nil => intro n _; simp [declKinds]
  | cons l ls ih =>
    intro n hn
    cases hb : ((parseLine l).1 == []) with
    | true =>
      rw [declCount_cons_skip ls hb] at hn
      rw [declKinds_cons_skip n ls hb]
      exact ih n hn
    | false =>
      rw [declCount_cons_keep ls hb] at hn
      rw [declKinds_cons_keep n ls hb]
      by_cases hw : declCount ls = 0
      · rw [declKinds_of_declCount_zero ls _ hw]
        simp
      · have hmod : (n + 1) % 65536 = n + 1 := by omega
        rw [hmod]
        rw [List.map_cons, List.pairwise_cons]
        constructor
        · intro x hx
          rcases List.mem_map.mp hx with ⟨k, hk, hkx⟩
          have := (declKinds_id_bounds ls (n + 1) (by omega) k hk).1
          subst hkx
          show n < k.Id
          omega
        · exact ih (n + 1) (by omega)

/-- The `int` arithmetic of `calcStep` collapses to the length of the line. -/
theorem calcStep_eq_length (st : LexerState) (line : Str) :
    calcStep st line = line.length := by
  simp only [calcStep]
  omega

/-- Every signature contains the empty string. -/
lemma strContains_nil (s : Str) : strContains s [] = true := by
  cases s <;> simp [strContains, strStarts]

/-- A nonempty kind map has a nonempty id list. -/
lemma mapIds_ne_nil {tkm : tokenKindMap} (h : tkm ≠ []) : mapIds tkm ≠ [] := by
  intro hc
  unfold mapIds at hc
  rw [List.dedup_eq_nil, List.map_eq_nil_iff] at hc
  exact h hc

/-- Searching a nonempty map for the empty signature finds every id. -/
lemma mapFind_nil_ne_nil {tkm : tokenKindMap} (h : tkm ≠ []) :
    mapFind tkm [] [] ≠ [] := by
  show (List.filter _ (if (([] : List Nat).length > 0) = true
    then ([] : List Nat) else mapIds tkm)) ≠ []
  rw [if_neg (by simp)]
  rw [List.filter_eq_self.mpr]
  · exact mapIds_ne_nil h
  · intro a _
    exact strContains_nil _

/-- A list with two distinct members has at least two elements. -/
lemma two_mem_two_le_length {α : Type} {a b : α} :
    ∀ {l : List α}, a ∈ l → b ∈ l → a ≠ b → 2 ≤ l.length := by
  intro l ha hb hab
  match l, ha, hb with
  | [x], ha, hb =>
    rw [List.mem_singleton] at ha hb
    exact absurd (ha.trans hb.symm) hab
  | x :: y :: t, _, _ => simp [List.length_cons]

/-- A duplicate-free list whose members all equal `e`, with `e` present, is `[e]`. -/
lemma eq_singleton_of_forall {α : Type} {l : List α} {e : α}
    (hn : l.Nodup) (he : e ∈ l) (hall : ∀ x ∈ l, x = e) : l = [e] := by
  match l, hn, he with
  | x :: t, hn, he =>
    have hx : x = e := hall x (List.mem_cons_self x t)
    subst hx
    have ht : t = [] := by
      rw [List.eq_nil_iff_forall_not_mem]
      intro y hy
      have : y = x := hall y (List.mem_cons_of_mem x hy)
      subst this
      exact (List.nodup_cons.mp hn).1 hy
    rw [ht]

/-- A registered kind with a distinct id is what the map read returns for it. -/
lemma mapGet_of_mem :
    ∀ (tkm : tokenKindMap) (k : TokenKind), k ∈ tkm →
      tkm.Pairwise (fun a b => a.Id ≠ b.Id) → mapGet tkm k.Id = k := by
  intro tkm
  induction tkm with
  | nil => intro k hk _; simp at hk
  | cons a l ih =>
    intro k hk hpw
    rw [List.pairwise_cons] at hpw
    rcases List.mem_cons.mp hk with rfl | hk'
    · unfold mapGet
      rw [List.filter_cons_of_pos (by simp)]
      have hfl : l.filter (fun x => x.Id == k.Id) = [] := by
        rw [List.filter_eq_nil_iff]
        intro b hb
        simp only [beq_iff_eq]
        exact fun hEq => hpw.1 b hb hEq.symm
      rw [hfl]
      rfl
    · have hne : (a.Id == k.Id) = false := by
        simp only [beq_eq_false_iff_ne]
        exact hpw.1 k hk'
      have := ih k hk' hpw.2
      unfold mapGet at this ⊢
      rw [List.filter_cons_of_neg (by simp [hne])]
      exact this

/-- Reading an id held by no registered kind returns the zero kind. -/
lemma mapGet_of_not_mem :
    ∀ (tkm : tokenKindMap) (id : Nat), (∀ k ∈ tkm, k.Id ≠ id) →
      mapGet tkm id = zeroKind := by
  intro tkm id hno
  unfold mapGet
  have hfl : tkm.filter (fun k => k.Id == id) = [] := by
    rw [List.filter_eq_nil_iff]
    intro b hb
    simp only [beq_iff_eq]
    exact hno b hb
  rw [hfl]
  rfl

/-- The id list of the map holds exactly the registered ids. -/
lemma mem_mapIds_iff {tkm : tokenKindMap} {i : Nat} :
    i ∈ mapIds tkm ↔ ∃ k ∈ tkm, k.Id = i := by
  unfold mapIds
  rw [List.mem_dedup, List.mem_map]

/-- The id list of the map is duplicate free. -/
lemma mapIds_nodup (tkm : tokenKindMap) : (mapIds tkm).Nodup :=
  List.nodup_dedup _

/-- `Find` with no candidate restriction filters the whole id list. -/
lemma mapFind_nil (tkm : tokenKindMap) (sig : tokenSignature) :
    mapFind tkm sig [] =
      (mapIds tkm).filter
        (fun i => sigContains (mapGet tkm i).Signature sig) := by
  unfold mapFind
  rw [if_neg (by simp)]

/-- `Find` with a nonempty candidate list filters that list. -/
lemma mapFind_pos (tkm : tokenKindMap) (sig : tokenSignature)
    {ids : List Nat} (h : ids ≠ []) :
    mapFind tkm sig ids =
      ids.filter (fun i => sigContains (mapGet tkm i).Signature sig) := by
  unfold mapFind
  rw [if_pos (List.length_pos.mpr h)]

/-- `FindEx` with a nonempty candidate list filters that list. -/
lemma mapFindEx_pos (tkm : tokenKindMap) (sig : tokenSignature)
    {ids : List Nat} (h : ids ≠ []) :
    mapFindEx tkm sig ids =
      ids.filter (fun i => sigCompare (mapGet tkm i).Signature sig) := by
  unfold mapFindEx
  rw [if_pos (List.length_pos.mpr h)]

/-- Under distinct ids, reading a held id gives a registered kind with that id. -/
lemma mapGet_mem_mapIds {tkm : tokenKindMap} {i : Nat}
    (hpw : tkm.Pairwise (fun a b => a.Id ≠ b.Id)) (hi : i ∈ mapIds tkm) :
    mapGet tkm i ∈ tkm ∧ (mapGet tkm i).Id = i := by
  obtain ⟨k, hk, rfl⟩ := mem_mapIds_iff.mp hi
  rw [mapGet_of_mem tkm k hk hpw]
  exact ⟨hk, rfl⟩

/--
C5 counterexample: with only the reserved kinds registered the maximum
signature length is 5, yet on a seven-character lookahead text the
initial inspection window of `isToken` is 7, not `min 5 7 = 5`: the
window is not bounded by `maxSignatureLength()`.
-/
theorem c5_calcStep_ne_specCalcStep :
    calcStep (loadTokens []) (s2l "abcdefg") = 7 ∧
      specCalcStep (loadTokens []) (s2l "abcdefg") = 5 ∧
      calcStep (loadTokens []) (s2l "abcdefg") ≠
        specCalcStep (loadTokens []) (s2l "abcdefg") := by
  refine ⟨by decide, by decide, by decide⟩

/--
C5 (amended): the initial inspection window of the lookahead sub-check
always equals the length of the given text — it is bounded by the line
length, but not clamped to `maxSignatureLength()`.
-/
theorem c5_window_eq_text_length :
    ∀ (st : LexerState) (text : Str), calcStep st text = text.length :=
  fun st text => calcStep_eq_length st text

/--
In the duplicate registry, the state (step 2, candidates [8, 9]) maps to
itself: the exact-match query returns both duplicates, the lookahead is
false, and the engine retries at the same step with the same candidate
set — so the computation is still running at every fuel.
-/
lemma findTokenGo_regDup_loop :
    ∀ (fuel : Nat), findTokenGo regDup fuel (s2l "==") 2 [8, 9] = .out := by
  intro fuel
  induction fuel with
  | zero => rfl
  | succ f ih =>
    have hcv : calcView (s2l "==") 0 2 = some (s2l "==") := by decide
    have hcv1 : calcView (s2l "==") 2 1 = some [] := by decide
    have htok : isToken regDup [] = some false := by decide
    have hfx : mapFindEx regDup.tokenKinds (s2l "==") [8, 9] = [8, 9] := by
      decide
    unfold findTokenGo
    rw [hcv]
    simp only [hcv1, htok, hfx, List.length_cons, List.length_nil]
    exact ih

/-- The duplicate registry reaches the looping state from candidates [7, 8, 9]. -/
lemma findTokenGo_regDup_out2 :
    ∀ (fuel : Nat), findTokenGo regDup fuel (s2l "==") 2 [7, 8, 9] = .out := by
  intro fuel
  cases fuel with
  | zero => rfl
  | succ f =>
    have hcv : calcView (s2l "==") 0 2 = some (s2l "==") := by decide
    have hcv1 : calcView (s2l "==") 2 1 = some [] := by decide
    have htok : isToken regDup [] = some false := by decide
    have hfx : mapFindEx regDup.tokenKinds (s2l "==") [7, 8, 9] = [8, 9] := by
      decide
    unfold findTokenGo
    rw [hcv]
    simp only [hcv1, htok, hfx, List.length_cons, List.length_nil]
    exact findTokenGo_regDup_loop f

/-- The duplicate registry diverges from the initial resolve state on `==`. -/
lemma findTokenGo_regDup_out1 :
    ∀ (fuel : Nat), findTokenGo regDup fuel (s2l "==") 1 [] = .out := by
  intro fuel
  cases fuel with
  | zero => rfl
  | succ f =>
    have hcv : calcView (s2l "==") 0 1 = some (s2l "=") := by decide
    have hfind : mapFind regDup.tokenKinds (s2l "=") [] = [7, 8, 9] := by
      decide
    have hcv1 : calcView (s2l "==") 1 1 = some (s2l "=") := by decide
    have htok : isToken regDup (s2l "=") = some true := by decide
    unfold findTokenGo
    rw [hcv]
    simp only [hfind, hcv1, htok, List.length_cons, List.length_nil]
    exact findTokenGo_regDup_out2 f

/-- On the duplicate registry both the resolver and the tokenizer are still
running at every fuel: the state (step 2, candidates [8, 9]) maps to itself. -/
lemma tokenizeLine_regDup_out :
    ∀ (fuel : Nat),
      findTokenGo regDup fuel (s2l "==") 1 [] = .out ∧
      TokenizeLine regDup fuel (s2l "==") 0 = .out := by
  intro fuel
  refine ⟨findTokenGo_regDup_out1 fuel, ?_⟩
  cases fuel with
  | zero => rfl
  | succ f =>
    have h := findTokenGo_regDup_out1 (f + 1)
    unfold TokenizeLine tokenizeLineGo
    simp only [s2l] at h ⊢
    have h0 : goSliceFrom ['=', '='] 0 = some ['=', '='] := by decide
    simp [h0, h]

/--
C3 counterexample: the claim quantifies over every registry in which `=`
and `==` are registered, but the loader performs no duplicate detection:
with a second `==` kind declared, resolving the line `==` reaches the
state (step 2, candidates [8, 9]), which maps to itself — the engine
recurses with identical arguments, so even at fuel 1000 `TokenizeLine`
on the two-character line `==` has not returned the claimed single token
(the same holds at every fuel).
-/
theorem c3_duplicate_eqeq_diverges :
    findTokenGo regDup 1000 (s2l "==") 1 [] = .out ∧
    TokenizeLine regDup 1000 (s2l "==") 0 = .out :=
  tokenizeLine_regDup_out 1000

/-- A conditional on the false boolean literal takes its else branch. -/
lemma if_beq_false {α : Type} {a b : α} : (if (false = true) then a else b) = b :=
  rfl

/-- A conditional on the true boolean literal takes its then branch. -/
lemma if_beq_true {α : Type} {a b : α} : (if (true = true) then a else b) = a :=
  rfl

/-- A registered kind whose signature contains `sig` is found by `Find`. -/
lemma mem_mapFind_nil_of {st : LexerState}
    (hpw : st.tokenKinds.Pairwise (fun a b => a.Id ≠ b.Id))
    {k : TokenKind} (hk : k ∈ st.tokenKinds) {sig : tokenSignature}
    (hc : sigContains k.Signature sig = true) :
    k.Id ∈ mapFind st.tokenKinds sig [] := by
  rw [mapFind_nil, List.mem_filter]
  refine ⟨mem_mapIds_iff.mpr ⟨k, hk, rfl⟩, ?_⟩
  rw [mapGet_of_mem st.tokenKinds k hk hpw]
  exact hc

/-- Kinds registered with signatures `=` and `==` have different ids. -/
lemma c3_ids_ne {st : LexerState} {kEq kEqEq : TokenKind}
    (hpw : st.tokenKinds.Pairwise (fun a b => a.Id ≠ b.Id))
    (hqm : kEq ∈ st.tokenKinds) (hqs : kEq.Signature = s2l "=")
    (hqqm : kEqEq ∈ st.tokenKinds) (hqqs : kEqEq.Signature = s2l "==") :
    kEq.Id ≠ kEqEq.Id := by
  intro h
  have h1 := mapGet_of_mem st.tokenKinds kEq hqm hpw
  have h2 := mapGet_of_mem st.tokenKinds kEqEq hqqm hpw
  rw [h] at h1
  have hkk : kEq = kEqEq := h1.symm.trans h2
  have : s2l "=" = s2l "==" := by rw [← hqs, ← hqqs, hkk]
  exact absurd this (by decide)

/-- The substring candidates for the view `=` include both kinds. -/
lemma c3_F_two {st : LexerState} {kEq kEqEq : TokenKind}
    (hpw : st.tokenKinds.Pairwise (fun a b => a.Id ≠ b.Id))
    (hqm : kEq ∈ st.tokenKinds) (hqs : kEq.Signature = s2l "=")
    (hqqm : kEqEq ∈ st.tokenKinds) (hqqs : kEqEq.Signature = s2l "==") :
    2 ≤ (mapFind st.tokenKinds (s2l "=") []).length :=
  two_mem_two_le_length
    (mem_mapFind_nil_of hpw hqm (by rw [hqs]; decide))
    (mem_mapFind_nil_of hpw hqqm (by rw [hqqs]; decide))
    (c3_ids_ne hpw hqm hqs hqqm hqqs)

/-- The substring candidates for the view `=` form a nonempty list. -/
lemma c3_F_ne_nil {st : LexerState} {kEq kEqEq : TokenKind}
    (hpw : st.tokenKinds.Pairwise (fun a b => a.Id ≠ b.Id))
    (hqm : kEq ∈ st.tokenKinds) (hqs : kEq.Signature = s2l "=")
    (hqqm : kEqEq ∈ st.tokenKinds) (hqqs : kEqEq.Signature = s2l "==") :
    mapFind st.tokenKinds (s2l "=") [] ≠ [] := by
  intro h
  have h2 := c3_F_two hpw hqm hqs hqqm hqqs
  rw [h] at h2
  simp at h2

/--
When exactly one kind carries signature `==`, the exact-match query on
the view `==` narrows the candidates to exactly its id.
-/
lemma c3_FindEx_eq {st : LexerState} {kEq kEqEq : TokenKind}
    (hpw : st.tokenKinds.Pairwise (fun a b => a.Id ≠ b.Id))
    (hqm : kEq ∈ st.tokenKinds) (hqs : kEq.Signature = s2l "=")
    (hqqm : kEqEq ∈ st.tokenKinds) (hqqs : kEqEq.Signature = s2l "==")
    (huqq : ∀ k ∈ st.tokenKinds, k.Signature = s2l "==" → k = kEqEq) :
    mapFindEx st.tokenKinds (s2l "==") (mapFind st.tokenKinds (s2l "=") []) =
      [kEqEq.Id] := by
  rw [mapFindEx_pos _ _ (c3_F_ne_nil hpw hqm hqs hqqm hqqs)]
  refine eq_singleton_of_forall ?_ ?_ ?_
  · rw [mapFind_nil]
    exact ((mapIds_nodup st.tokenKinds).filter _).filter _
  · rw [List.mem_filter]
    refine ⟨mem_mapFind_nil_of hpw hqqm (by rw [hqqs]; decide), ?_⟩
    rw [mapGet_of_mem st.tokenKinds kEqEq hqqm hpw, hqqs]
    decide
  · intro x hx
    rw [List.mem_filter] at hx
    obtain ⟨hxF, hxp⟩ := hx
    have hxIds : x ∈ mapIds st.tokenKinds := by
      rw [mapFind_nil] at hxF
      exact (List.mem_filter.mp hxF).1
    obtain ⟨hmem, hid⟩ := mapGet_mem_mapIds hpw hxIds
    have hsig : (mapGet st.tokenKinds x).Signature = s2l "==" := by
      simpa [sigCompare] using hxp
    have hk := huqq (mapGet st.tokenKinds x) hmem hsig
    rw [← hid, hk]

/-- The id of the `=` kind survives the exact-match query on the view `=`. -/
lemma c3_FindExEq_mem {st : LexerState} {kEq kEqEq : TokenKind}
    (hpw : st.tokenKinds.Pairwise (fun a b => a.Id ≠ b.Id))
    (hqm : kEq ∈ st.tokenKinds) (hqs : kEq.Signature = s2l "=")
    (hqqm : kEqEq ∈ st.tokenKinds) (hqqs : kEqEq.Signature = s2l "==") :
    kEq.Id ∈ mapFindEx st.tokenKinds (s2l "=")
      (mapFind st.tokenKinds (s2l "=") []) := by
  rw [mapFindEx_pos _ _ (c3_F_ne_nil hpw hqm hqs hqqm hqqs), List.mem_filter]
  refine ⟨mem_mapFind_nil_of hpw hqm (by rw [hqs]; decide), ?_⟩
  rw [mapGet_of_mem st.tokenKinds kEq hqm hpw, hqs]
  decide

/-- With a registered `=` kind, the lookahead oracle accepts the text `=`. -/
lemma c3_isToken_eq {st : LexerState} {kEq kEqEq : TokenKind}
    (hpw : st.tokenKinds.Pairwise (fun a b => a.Id ≠ b.Id))
    (hqm : kEq ∈ st.tokenKinds) (hqs : kEq.Signature = s2l "=")
    (hqqm : kEqEq ∈ st.tokenKinds) (hqqs : kEqEq.Signature = s2l "==") :
    isToken st (s2l "=") = some true := by
  unfold isToken
  simp only [calcStep_eq_length]
  rw [show (s2l "=").length = 1 from rfl]
  simp only [show calcViewR (s2l "=") 1 1 = some (s2l "=") from by decide]
  unfold isTokenLoop
  have hb1 : ((mapFind st.tokenKinds (s2l "=") []).length == 0) = false := by
    rw [beq_eq_false_iff_ne]
    have := c3_F_two hpw hqm hqs hqqm hqqs
    omega
  have hb2 : ((s2l "=") == [' ']) = false := by decide
  have hmem := c3_FindExEq_mem hpw hqm hqs hqqm hqqs
  have hne2 : (mapFindEx st.tokenKinds (s2l "=")
      (mapFind st.tokenKinds (s2l "=") [])).length ≠ 0 := by
    intro h
    rw [List.length_eq_zero] at h
    rw [h] at hmem
    simp at hmem
  simp [hb1, hb2, hne2]

/-- With no empty signature registered, the lookahead rejects the empty text. -/
lemma c3_isToken_nil {st : LexerState} {kEq : TokenKind}
    (hpw : st.tokenKinds.Pairwise (fun a b => a.Id ≠ b.Id))
    (hqm : kEq ∈ st.tokenKinds)
    (hnem : ∀ k ∈ st.tokenKinds, k.Signature ≠ []) :
    isToken st [] = some false := by
  have htkm : st.tokenKinds ≠ [] := by
    intro h
    rw [h] at hqm
    simp at hqm
  unfold isToken
  simp only [calcStep_eq_length]
  rw [show ([] : Str).length = 0 from rfl]
  simp only [show calcViewR ([] : Str) 0 1 = some [] from by decide]
  unfold isTokenLoop
  have hb1 : ((mapFind st.tokenKinds [] []).length == 0) = false := by
    rw [beq_eq_false_iff_ne]
    intro h
    exact mapFind_nil_ne_nil htkm (List.length_eq_zero.mp h)
  have hb2 : (([] : Str) == [' ']) = false := by decide
  have hfxnil : mapFindEx st.tokenKinds []
      (mapFind st.tokenKinds [] []) = [] := by
    rw [mapFindEx_pos _ _ (mapFind_nil_ne_nil htkm), List.filter_eq_nil_iff]
    intro i hi
    have hiIds : i ∈ mapIds st.tokenKinds := by
      rw [mapFind_nil] at hi
      exact (List.mem_filter.mp hi).1
    obtain ⟨hmem, _⟩ := mapGet_mem_mapIds hpw hiIds
    have := hnem _ hmem
    simp only [sigCompare, beq_iff_eq]
    exact this
  simp [hb1, hb2, hfxnil]

/-- Terminal resolve call: a singleton exact-matching candidate returns. -/
lemma c3_call3 {st : LexerState} {kEqEq : TokenKind}
    (hpw : st.tokenKinds.Pairwise (fun a b => a.Id ≠ b.Id))
    (hqqm : kEqEq ∈ st.tokenKinds) (hqqs : kEqEq.Signature = s2l "==") :
    ∀ (fuel : Nat), 1 ≤ fuel →
      findTokenGo st fuel (s2l "==") 2 [kEqEq.Id] =
        .ok (kEqEq.Id, s2l "==") := by
  intro fuel hf
  match fuel, hf with
  | f + 1, _ =>
    unfold findTokenGo
    have hpred : sigCompare (mapGet st.tokenKinds kEqEq.Id).Signature
        (s2l "==") = true := by
      rw [mapGet_of_mem st.tokenKinds kEqEq hqqm hpw, hqqs]
      decide
    have hfx : mapFindEx st.tokenKinds (s2l "==") [kEqEq.Id] = [kEqEq.Id] := by
      rw [mapFindEx_pos _ _ (by simp)]
      simp [hpred]
    show (match mapFindEx st.tokenKinds (s2l "==") [kEqEq.Id] with
      | [] => findTokenGo st f (s2l "==") (2 + 1) []
      | i :: _ => Res.ok (i, s2l "==")) = Res.ok (kEqEq.Id, s2l "==")
    rw [hfx]

/-- Second resolve call: the lookahead at line end narrows to the `==` kind. -/
lemma c3_call2 {st : LexerState} {kEq kEqEq : TokenKind}
    (hpw : st.tokenKinds.Pairwise (fun a b => a.Id ≠ b.Id))
    (hqm : kEq ∈ st.tokenKinds) (hqs : kEq.Signature = s2l "=")
    (hqqm : kEqEq ∈ st.tokenKinds) (hqqs : kEqEq.Signature = s2l "==")
    (huqq : ∀ k ∈ st.tokenKinds, k.Signature = s2l "==" → k = kEqEq)
    (hnem : ∀ k ∈ st.tokenKinds, k.Signature ≠ []) :
    ∀ (fuel : Nat), 2 ≤ fuel →
      findTokenGo st fuel (s2l "==") 2 (mapFind st.tokenKinds (s2l "=") []) =
        .ok (kEqEq.Id, s2l "==") := by
  intro fuel hf
  match fuel, hf with
  | f + 1, hf' =>
    unfold findTokenGo
    have hb0 : ((mapFind st.tokenKinds (s2l "=") []).length == 0) = false := by
      rw [beq_eq_false_iff_ne]
      have := c3_F_two hpw hqm hqs hqqm hqqs
      omega
    have hb1 : ((mapFind st.tokenKinds (s2l "=") []).length == 1) = false := by
      rw [beq_eq_false_iff_ne]
      have := c3_F_two hpw hqm hqs hqqm hqqs
      omega
    simp only [show calcView (s2l "==") 0 2 = some (s2l "==") from by decide,
      hb0, hb1, if_beq_false,
      show calcView (s2l "==") 2 1 = some [] from by decide,
      c3_isToken_nil hpw hqm hnem, Bool.not_false, if_beq_true,
      c3_FindEx_eq hpw hqm hqs hqqm hqqs huqq,
      show (([kEqEq.Id] : List Nat).length == 0) = false from rfl]
    exact c3_call3 hpw hqqm hqqs f (by omega)

/-- First resolve call: prefix ambiguity extends past the view `=`. -/
lemma c3_call1 {st : LexerState} {kEq kEqEq : TokenKind}
    (hpw : st.tokenKinds.Pairwise (fun a b => a.Id ≠ b.Id))
    (hqm : kEq ∈ st.tokenKinds) (hqs : kEq.Signature = s2l "=")
    (hqqm : kEqEq ∈ st.tokenKinds) (hqqs : kEqEq.Signature = s2l "==")
    (huqq : ∀ k ∈ st.tokenKinds, k.Signature = s2l "==" → k = kEqEq)
    (hnem : ∀ k ∈ st.tokenKinds, k.Signature ≠ []) :
    ∀ (fuel : Nat), 3 ≤ fuel →
      findTokenGo st fuel (s2l "==") 1 [] = .ok (kEqEq.Id, s2l "==") := by
  intro fuel hf
  match fuel, hf with
  | f + 1, hf' =>
    unfold findTokenGo
    have hb0 : ((mapFind st.tokenKinds (s2l "=") []).length == 0) = false := by
      rw [beq_eq_false_iff_ne]
      have := c3_F_two hpw hqm hqs hqqm hqqs
      omega
    have hb1 : ((mapFind st.tokenKinds (s2l "=") []).length == 1) = false := by
      rw [beq_eq_false_iff_ne]
      have := c3_F_two hpw hqm hqs hqqm hqqs
      omega
    simp only [show calcView (s2l "==") 0 1 = some (s2l "=") from by decide,
      show ((([] : List Nat).length == 0)) = true from rfl, if_beq_true, if_true,
      hb0, hb1, if_beq_false,
      show calcView (s2l "==") 1 1 = some (s2l "=") from by decide,
      c3_isToken_eq hpw hqm hqs hqqm hqqs, Bool.not_true]
    exact c3_call2 hpw hqm hqs hqqm hqqs huqq hnem f (by omega)

/--
C3 (amended): for every registry with distinct ids in which some kind
carries signature `=`, exactly one kind carries signature `==` (with an
id other than the generic-identifier id 1), and no kind carries an empty
signature, tokenizing the line `==` yields exactly one token, of the
kind whose signature is `==`, not two tokens of the `=` kind.  The
exactly-one restriction on `==` is forced by the counterexample: with a
duplicate `==` kind the engine never returns.
-/
theorem c3_maximal_munch_unique
    (st : LexerState) (kEq kEqEq : TokenKind)
    (hpw : st.tokenKinds.Pairwise (fun a b => a.Id ≠ b.Id))
    (hqm : kEq ∈ st.tokenKinds) (hqs : kEq.Signature = s2l "=")
    (hqqm : kEqEq ∈ st.tokenKinds) (hqqs : kEqEq.Signature = s2l "==")
    (huqq : ∀ k ∈ st.tokenKinds, k.Signature = s2l "==" → k = kEqEq)
    (hnem : ∀ k ∈ st.tokenKinds, k.Signature ≠ [])
    (hq1 : kEqEq.Id ≠ 1)
    (fuel lineNo : Nat) (hf : 3 ≤ fuel) :
    TokenizeLine st fuel (s2l "==") lineNo =
      .ok [⟨kEqEq, lineNo, 1, s2l "=="⟩] := by
  match fuel, hf with
  | g + 1, hf' =>
    unfold TokenizeLine tokenizeLineGo
    rw [if_pos (show (0 : Nat) < (s2l "==").length from by decide)]
    have hbq : (kEqEq.Id == 1) = false := beq_eq_false_iff_ne.mpr hq1
    have hrec : tokenizeLineGo st (g + 1) g (s2l "==") lineNo
        (0 + (s2l "==").length) = .ok [] := by
      match g, (show 1 ≤ g by omega) with
      | h + 1, _ =>
        unfold tokenizeLineGo
        rw [if_neg (by decide)]
    simp only [show goSliceFrom (s2l "==") 0 = some (s2l "==") from by decide,
      c3_call1 hpw hqm hqs hqqm hqqs huqq hnem (g + 1) (by omega),
      hbq, if_beq_false, hrec,
      mapGet_of_mem st.tokenKinds kEqEq hqqm hpw]
    rfl

/-- Witness for C3 (amended) on the registry declaring `=` then `==`. -/
theorem c3_maximal_munch_unique_witness :
    TokenizeLine (loadTokens [s2l "ASSIGN =", s2l "EQEQ =="]) 30 (s2l "==") 0 =
      .ok [⟨⟨8, s2l "EQEQ", s2l "=="⟩, 0, 1, s2l "=="⟩] :=
  c3_maximal_munch_unique (loadTokens [s2l "ASSIGN =", s2l "EQEQ =="])
    ⟨7, s2l "ASSIGN", s2l "="⟩ ⟨8, s2l "EQEQ", s2l "=="⟩
    (by decide) (by decide) (by decide) (by decide) (by decide)
    (by decide) (by decide) (by decide) 30 0 (by decide)

/--
C9: with declared signatures `xy` and `xz`, resolving the line `x`
reaches `calcView(line, 2, 1)`, which evaluates `line[2:]` on a line of
length 1 — a slice out of range.  Both the engine and the tokenizer
abort with a runtime panic, so tokenization is not slice-safe.
-/
theorem c9_out_of_range_panic :
    findTokenGo (loadTokens [s2l "AB xy", s2l "AC xz"]) 10 (s2l "x") 1 [] =
      .panic ∧
    TokenizeLine (loadTokens [s2l "AB xy", s2l "AC xz"]) 20 (s2l "x") 0 =
      .panic := by
  refine ⟨by decide, by decide⟩

/--
C8 counterexample: on the registry of reserved kinds alone, resolving the
line `&TYPE` returns id 2 (generic-type): the reserved signatures are
matchable like any other, so the engine does emit ids 2 and 3 when the
input text contains them.
-/
theorem c8_findToken_returns_id2 :
    findTokenGo (loadTokens []) 12 (s2l "&TYPE") 1 [] =
      .ok (2, s2l "&TYPE") ∧
    TokenizeLine (loadTokens []) 20 (s2l "&TYPE") 0 =
      .ok [⟨⟨2, s2l "GENTYPE", s2l "&TYPE"⟩, 0, 1, s2l "&TYPE"⟩] := by
  refine ⟨by decide, by decide⟩

/-- On the one-character line `=`, the view is the whole line for every step. -/
lemma calcView_eq_step (s : Nat) (hs : 1 ≤ s) :
    calcView (s2l "=") 0 s = some (s2l "=") := by
  match s, hs with
  | 1, _ => decide
  | n + 2, _ =>
    unfold calcView
    rw [if_pos (by simp [s2l])]
    decide

/--
With only `==` declared, resolving the line `=` never returns: at every
step the substring query narrows to the single candidate `==`, the exact
match on `=` fails, and the engine retries with `step + 1` while the view
stays the whole line — for every fuel the computation is still running.
-/
lemma findTokenGo_regEqOnly_out :
    ∀ (fuel s : Nat), 1 ≤ s →
      findTokenGo regEqOnly fuel (s2l "=") s [] = .out := by
  intro fuel
  induction fuel with
  | zero => intro s _; rfl
  | succ f ih =>
    intro s hs
    have hfind : mapFind regEqOnly.tokenKinds (s2l "=") [] = [7] := by decide
    have hfx : mapFindEx regEqOnly.tokenKinds (s2l "=") [7] = [] := by decide
    unfold findTokenGo
    rw [calcView_eq_step s hs]
    simp only [hfind, hfx, List.length_nil, List.length_cons]
    exact ih (s + 1) (by omega)

/--
C7 (amended): the registry read does not fail on unregistered ids: `Get`
of an id that was never registered returns the zero `TokenKind` (id 0,
empty name, empty signature) rather than an error; under the
precondition that the id was registered (ids being distinct), it returns
the `TokenKind` registered under that id.
-/
theorem c7_get_semantics :
    (∀ (tkm : tokenKindMap) (k : TokenKind), k ∈ tkm →
      tkm.Pairwise (fun a b => a.Id ≠ b.Id) → mapGet tkm k.Id = k) ∧
    (∀ (tkm : tokenKindMap) (id : Nat), (∀ k ∈ tkm, k.Id ≠ id) →
      mapGet tkm id = zeroKind) :=
  ⟨mapGet_of_mem, mapGet_of_not_mem⟩

/-- Witness for C7 (amended): id 0 is whitespace, id 999 reads the zero kind. -/
theorem c7_get_semantics_witness :
    mapGet (loadTokens []).tokenKinds 0 = ⟨0, s2l "WHTSPACE", s2l " "⟩ ∧
    mapGet (loadTokens []).tokenKinds 999 = zeroKind :=
  ⟨c7_get_semantics.1 (loadTokens []).tokenKinds ⟨0, s2l "WHTSPACE", s2l " "⟩
      (by decide) (by decide),
   c7_get_semantics.2 (loadTokens []).tokenKinds 999 (by decide)⟩

/-- An id surviving the exact-match query has exactly the queried signature. -/
lemma mem_mapFindEx {tkm : tokenKindMap} {sig : tokenSignature} {ids : List Nat}
    {i : Nat} (hm : i ∈ mapFindEx tkm sig ids) :
    (mapGet tkm i).Signature = sig := by
  simp only [mapFindEx] at hm
  have := (List.mem_filter.mp hm).2
  simpa [sigCompare] using this

/-- The head of a nonempty exact-match result has exactly the queried signature. -/
lemma mapFindEx_cons_sig {tkm : tokenKindMap} {sig : tokenSignature} {ids : List Nat}
    {j : Nat} {js : List Nat} (h : mapFindEx tkm sig ids = j :: js) :
    (mapGet tkm j).Signature = sig :=
  mem_mapFindEx (by rw [h]; exact List.mem_cons_self _ _)

/-- While the counter does not wrap, reads of reserved ids see the reserved kinds. -/
lemma mapGet_loadTokens_lt7 (ds : List Str) (h : 7 + declCount ds ≤ 65536)
    (id : Nat) (hid : id < 7) :
    mapGet (loadTokens ds).tokenKinds id = mapGet reservedKinds id := by
  unfold mapGet
  rw [loadTokens_tokenKinds, List.filter_append]
  have hfl : (declKinds 7 ds).filter (fun k => k.Id == id) = [] := by
    rw [List.filter_eq_nil_iff]
    intro k hk
    have := (declKinds_id_bounds ds 7 h k hk).1
    simp only [beq_iff_eq]
    omega
  rw [hfl, List.append_nil]

/--
Inversion of a successful resolve: the engine returns either the generic
identifier id 1, or an id whose registered signature is exactly the
returned text (the terminal case goes through the exact-match query).
-/
lemma findTokenGo_ok_sig (st : LexerState) :
    ∀ (fuel : Nat) (line : Str) (step : Nat) (ids : List Nat)
      (i : Nat) (s : tokenSignature),
      findTokenGo st fuel line step ids = .ok (i, s) →
      i = 1 ∨ (mapGet st.tokenKinds i).Signature = s := by
  intro fuel
  induction fuel with
  | zero =>
    intro line step ids i s heq
    simp [findTokenGo] at heq
  | succ f ih =>
    intro line step ids i s heq
    unfold findTokenGo at heq
    split at heq
    · exact absurd heq (by simp)
    · dsimp only at heq
      repeat' split at heq
      all_goals
        first
        | exact Res.noConfusion heq
        | exact ih _ _ _ _ _ heq
        | (rw [Res.ok.injEq, Prod.mk.injEq] at heq
           obtain ⟨hi, hs⟩ := heq
           exact Or.inl hi.symm)
        | (rename_i hfx
           rw [Res.ok.injEq, Prod.mk.injEq] at heq
           obtain ⟨hi, hs⟩ := heq
           subst hi
           subst hs
           exact Or.inr (mapFindEx_cons_sig hfx))

/--
C8 (amended): the engine returns id 2 (generic-type) or id 3
(generic-object) only with the literal reserved signature `&TYPE`
(respectively `&OBJ`) as the matched text — that is, only when the input
itself begins with the reserved marker; it never otherwise produces
these ids (counter within the uint16 range).
-/
theorem c8_engine_reserved_texts (ds : List Str) (hds : 7 + declCount ds ≤ 65536)
    (fuel : Nat) (line : Str) (step : Nat) (ids : List Nat)
    (i : Nat) (s : tokenSignature)
    (heq : findTokenGo (loadTokens ds) fuel line step ids = .ok (i, s)) :
    (i = 2 → s = s2l "&TYPE") ∧ (i = 3 → s = s2l "&OBJ") := by
  have hinv := findTokenGo_ok_sig (loadTokens ds) fuel line step ids i s heq
  constructor
  · intro hi
    subst hi
    rcases hinv with h1 | h2
    · omega
    · rw [mapGet_loadTokens_lt7 ds hds 2 (by omega)] at h2
      exact h2.symm
  · intro hi
    subst hi
    rcases hinv with h1 | h2
    · omega
    · rw [mapGet_loadTokens_lt7 ds hds 3 (by omega)] at h2
      exact h2.symm

/-- Witness for C8 (amended): the resolve of `&TYPE` that produces id 2. -/
theorem c8_engine_reserved_texts_witness :
    (2 = 2 → s2l "&TYPE" = s2l "&TYPE") ∧ (2 = 3 → s2l "&TYPE" = s2l "&OBJ") :=
  c8_engine_reserved_texts [] (by decide) 12 (s2l "&TYPE") 1 [] 2 (s2l "&TYPE")
    (by decide)

/-- The shrink loop of `isToken` never panics when entered inside the line. -/
lemma isTokenLoop_isSome (st : LexerState) (line : Str) :
    ∀ (step : Nat), 1 ≤ step → step ≤ line.length →
      ∀ (sig view : Str) (mtchs : List Nat),
        (isTokenLoop st line step sig view mtchs).isSome := by
  intro step
  induction step using Nat.strong_induction_on with
  | _ step ih =>
    intro h1 h2 sig view mtchs
    match step, h1 with
    | 1, _ =>
      unfold isTokenLoop
      split
      · simp
      · simp
    | (s + 2), _ =>
      unfold isTokenLoop
      split
      · have hg1 : goSlice line 0 (s + 1) =
            some ((line.take (s + 1)).drop 0) := by
          unfold goSlice
          rw [if_pos ⟨by omega, by omega⟩]
        have hg2 : goSlice line s (s + 1) =
            some ((line.take (s + 1)).drop s) := by
          unfold goSlice
          rw [if_pos ⟨by omega, by omega⟩]
        simp only [hg1, hg2]
        exact ih (s + 1) (by omega) (by omega) (by omega) _ _ _
      · simp

/-- The lookahead oracle never panics on a registry with at least one kind. -/
lemma isToken_isSome (st : LexerState) (hst : st.tokenKinds ≠ []) (line : Str) :
    (isToken st line).isSome := by
  unfold isToken
  simp only [calcStep_eq_length]
  rcases hl : line.length with _ | n
  · have hnil : line = [] := List.length_eq_zero.mp hl
    subst hnil
    rw [show calcViewR [] 0 1 = some [] from by decide]
    unfold isTokenLoop
    rw [if_neg]
    · simp
    · have hne := mapFind_nil_ne_nil hst
      simp only [Bool.or_eq_true, beq_iff_eq, List.length_eq_zero]
      push_neg
      refine ⟨hne, by simp⟩
  · have hcv : ∃ v, calcViewR line (n + 1) 1 = some v := by
      unfold calcViewR
      by_cases he : n + 1 ≠ 1
      · rw [if_pos he]
        exact ⟨[], rfl⟩
      · rw [if_neg he]
        unfold goSlice
        rw [if_pos ⟨by omega, by omega⟩]
        exact ⟨_, rfl⟩
    obtain ⟨v, hv⟩ := hcv
    rw [hv]
    exact isTokenLoop_isSome st line (n + 1) (by omega) (by omega) _ _ _

/--
The scan loop of `findIdenToken` stops exactly at the first offset where
a real token begins (or at the end of the line): the returned view is the
prefix up to that offset.
-/
lemma findIdenLoop_spec (st : LexerState) (hst : st.tokenKinds ≠ []) (line : Str) :
    ∀ (rem step t : Nat),
      1 ≤ step → step ≤ line.length →
      1 ≤ t → t ≤ step → step ≤ t + 1 →
      line.length ≤ rem + step →
      (∀ k, 1 ≤ k → k < t → isToken st (line.drop k) ≠ some true) →
      ∃ m, findIdenLoop st line rem step (line.take t) (line.drop t) =
          some (line.take m) ∧
        1 ≤ m ∧ m ≤ line.length ∧
        (m = line.length ∨ isToken st (line.drop m) = some true) ∧
        (∀ k, 1 ≤ k → k < m → isToken st (line.drop k) ≠ some true) := by
  intro rem
  induction rem with
  | zero =>
    intro step t h1 h2 ht1 ht2 ht3 hrem hpre
    cases hit : isToken st (line.drop t) with
    | none =>
      exfalso
      have hs := isToken_isSome st hst (line.drop t)
      rw [hit] at hs
      simp at hs
    | some b =>
      cases b with
      | true =>
        refine ⟨t, ?_, ht1, le_trans ht2 h2, Or.inr hit, hpre⟩
        unfold findIdenLoop
        rw [hit]
      | false =>
        have hg1 : goSlice line 0 step = some (line.take step) := by
          unfold goSlice
          rw [if_pos ⟨by omega, h2⟩]
          rw [List.drop_zero]
        have hg2 : goSliceFrom line step = some (line.drop step) := by
          unfold goSliceFrom
          rw [if_pos h2]
        unfold findIdenLoop
        simp only [hit, hg1, hg2]
        have hend : step + 1 > line.length := by omega
        rw [if_pos hend]
        have hsl : step = line.length := by omega
        refine ⟨line.length, by rw [hsl], by omega, le_refl _, Or.inl rfl, ?_⟩
        intro k hk1 hk2
        by_cases hkt : k < t
        · exact hpre k hk1 hkt
        · have hkeq : k = t := by omega
          rw [hkeq, hit]
          simp
  | succ r ih =>
    intro step t h1 h2 ht1 ht2 ht3 hrem hpre
    cases hit : isToken st (line.drop t) with
    | none =>
      exfalso
      have hs := isToken_isSome st hst (line.drop t)
      rw [hit] at hs
      simp at hs
    | some b =>
      cases b with
      | true =>
        refine ⟨t, ?_, ht1, le_trans ht2 h2, Or.inr hit, hpre⟩
        unfold findIdenLoop
        rw [hit]
      | false =>
        have hg1 : goSlice line 0 step = some (line.take step) := by
          unfold goSlice
          rw [if_pos ⟨by omega, h2⟩]
          rw [List.drop_zero]
        have hg2 : goSliceFrom line step = some (line.drop step) := by
          unfold goSliceFrom
          rw [if_pos h2]
        unfold findIdenLoop
        simp only [hit, hg1, hg2]
        by_cases hend : step + 1 > line.length
        · rw [if_pos hend]
          have hsl : step = line.length := by omega
          refine ⟨line.length, by rw [hsl], by omega, le_refl _, Or.inl rfl, ?_⟩
          intro k hk1 hk2
          by_cases hkt : k < t
          · exact hpre k hk1 hkt
          · have hkeq : k = t := by omega
            rw [hkeq, hit]
            simp
        · rw [if_neg hend]
          refine ih (step + 1) step (by omega) (by omega) (by omega) (by omega)
            (by omega) (by omega) ?_
          intro k hk1 hk2
          by_cases hkt : k < t
          · exact hpre k hk1 hkt
          · have hkeq : k = t := by omega
            rw [hkeq, hit]
            simp

/--
`findIdenToken` returns the prefix of its input ending exactly where a
real token begins: the result is maximal but never overruns into an
adjacent recognizable token.
-/
lemma findIdenToken_spec (st : LexerState) (hst : st.tokenKinds ≠ [])
    (line : Str) (hlen : 1 ≤ line.length) :
    ∃ m, findIdenToken st line = some (line.take m) ∧ 1 ≤ m ∧ m ≤ line.length ∧
      (m = line.length ∨ isToken st (line.drop m) = some true) ∧
      (∀ k, 1 ≤ k → k < m → isToken st (line.drop k) ≠ some true) := by
  unfold findIdenToken
  by_cases h1 : (line.length == 1) = true
  · rw [if_pos h1]
    have hl1 : line.length = 1 := by simpa using h1
    have htk : line.take 1 = line := by
      conv_lhs => rw [← hl1]
      exact List.take_length line
    refine ⟨1, by rw [htk], le_refl 1, by omega, Or.inl hl1.symm, ?_⟩
    intro k hk1 hk2
    exact absurd hk1 (by omega)
  · rw [if_neg h1]
    have hlen2 : 2 ≤ line.length := by
      simp only [beq_iff_eq] at h1
      omega
    have hg1 : goSlice line 0 1 = some (line.take 1) := by
      unfold goSlice
      rw [if_pos ⟨by omega, by omega⟩]
      rw [List.drop_zero]
    have hg2 : goSliceFrom line 1 = some (line.drop 1) := by
      unfold goSliceFrom
      rw [if_pos (by omega)]
    rw [hg1, hg2]
    exact findIdenLoop_spec st hst line line.length 1 1 (by omega) (by omega)
      (by omega) (by omega) (by omega) (by omega)
      (fun k hk1 hk2 => absurd hk1 (by omega))

/--
C4: whenever the engine falls back to the generic identifier, the
scanner returns the prefix of the provisional text ending exactly where
a real token begins — maximal but never overrunning into an adjacent
declared token; in particular, with `==` declared and no signature for
`abc`, the line `abc==` yields the generic-identifier token `abc`
followed by one `==` token.
-/
theorem c4_generic_scanner_boundary :
    (∀ (st : LexerState) (line : Str), st.tokenKinds ≠ [] → 1 ≤ line.length →
      ∃ m, findIdenToken st line = some (line.take m) ∧ 1 ≤ m ∧
        m ≤ line.length ∧
        (m = line.length ∨ isToken st (line.drop m) = some true) ∧
        (∀ k, 1 ≤ k → k < m → isToken st (line.drop k) ≠ some true)) ∧
    TokenizeLine regEqOnly 30 (s2l "abc==") 0 =
      .ok [⟨⟨1, s2l "GENIDEN", s2l "&IDEN"⟩, 0, 1, s2l "abc"⟩,
           ⟨⟨7, s2l "EQEQ", s2l "=="⟩, 0, 4, s2l "=="⟩] :=
  ⟨fun st line hst hlen => findIdenToken_spec st hst line hlen, by decide⟩

/-- Witness for C4 on the registry with `==` declared and the text `abc==`. -/
theorem c4_generic_scanner_boundary_witness :
    ∃ m, findIdenToken regEqOnly (s2l "abc==") = some ((s2l "abc==").take m) ∧
      1 ≤ m ∧ m ≤ (s2l "abc==").length ∧
      (m = (s2l "abc==").length ∨
        isToken regEqOnly ((s2l "abc==").drop m) = some true) ∧
      (∀ k, 1 ≤ k → k < m →
        isToken regEqOnly ((s2l "abc==").drop k) ≠ some true) :=
  c4_generic_scanner_boundary.1 regEqOnly (s2l "abc==") (by decide) (by decide)

/--
C2: the resolve procedure does not terminate for every line and starting
step: with only `==` declared (alongside the reserved kinds) and the line
`=`, for every starting step at least 1 and every recursion budget the
computation is still unfinished — `step` grows without bound while the
candidate set never narrows to a terminal case.
-/
theorem c2_findToken_not_terminating (fuel s : Nat) (hs : 1 ≤ s) :
    findTokenGo regEqOnly fuel (s2l "=") s [] = .out :=
  findTokenGo_regEqOnly_out fuel s hs

/-- Witness for C2 at fuel 9 and starting step 1. -/
theorem c2_findToken_not_terminating_witness :
    1 ≤ 1 ∧ findTokenGo regEqOnly 9 (s2l "=") 1 [] = .out :=
  ⟨Nat.le_refl 1, c2_findToken_not_terminating 9 1 (Nat.le_refl 1)⟩

/--
C1: tokenizing is not total: with only `==` declared (alongside the
reserved kinds), `TokenizeLine` on the line `=` never produces a token
sequence — for every recursion budget the computation is still running,
so no reconstructing sequence is ever returned.
-/
theorem c1_tokenize_line_diverges :
    ∀ (fuel lineNo : Nat), TokenizeLine regEqOnly fuel (s2l "=") lineNo = .out := by
  intro fuel lineNo
  cases fuel with
  | zero => rfl
  | succ f =>
    have h := findTokenGo_regEqOnly_out (f + 1) 1 (Nat.le_refl 1)
    unfold TokenizeLine tokenizeLineGo
    simp only [s2l] at h ⊢
    have h0 : goSliceFrom ['='] 0 = some ['='] := by decide
    simp [h0, h]

/-- The ids assigned to a replicated declaration file, with uint16 wrapping. -/
lemma declKinds_replicate_ids :
    ∀ (m n : Nat), n < 65536 →
      (declKinds n (List.replicate m (s2l "A b"))).map (fun k => k.Id) =
        (List.range m).map (fun i => (n + i) % 65536) := by
  intro m
  induction m with
  | zero => intro n _; simp [declKinds]
  | succ m ih =>
    intro n hn
    rw [List.replicate_succ, declKinds_cons_keep n _ (by decide)]
    rw [List.map_cons, List.range_succ_eq_map, List.map_cons, List.map_map]
    congr 1
    · show n = (n + 0) % 65536
      omega
    · rw [ih ((n + 1) % 65536) (Nat.mod_lt _ (by norm_num))]
      refine List.map_congr_left ?_
      intro i _
      show ((n + 1) % 65536 + i) % 65536 = (n + (i + 1)) % 65536
      omega

/--
C6 counterexample: the id counter is a uint16, so a declaration file with
65530 kept lines makes the counter wrap: the 65537th registration is
assigned id 0 again, and the ids of the registry are not strictly
increasing in registration order (id 0 is reused).
-/
theorem c6_ids_wrap_counterexample :
    ¬ (((loadTokens (List.replicate 65530 (s2l "A b"))).tokenKinds.map
        (fun k => k.Id)).Pairwise (· < ·)) := by
  intro hpw
  rw [loadTokens_tokenKinds, List.map_append,
    declKinds_replicate_ids 65530 7 (by norm_num)] at hpw
  have h0l : (0 : Nat) ∈ reservedKinds.map (fun k => k.Id) := by decide
  have h0r : (0 : Nat) ∈ (List.range 65530).map (fun i => (7 + i) % 65536) :=
    List.mem_map.mpr ⟨65529, List.mem_range.mpr (by norm_num), by norm_num⟩
  exact absurd ((List.pairwise_append.mp hpw).2.2 0 h0l 0 h0r) (lt_irrefl 0)

/--
C6 (amended): provided the total number of registrations stays within the
uint16 range (7 reserved plus at most 65529 kept declaration lines), the
ids of the registry built by the loader are strictly increasing from 0 in
registration order, the first seven kinds are the reserved ones (ids 0-6:
whitespace, generic-identifier, generic-type, generic-object, newline,
carriage-return, tab, in that order), every declared kind receives an id
at least 7, and loading more declarations only appends to the registry.
-/
theorem c6_registration_order (ds : List Str) (h : 7 + declCount ds ≤ 65536) :
    ((loadTokens ds).tokenKinds.map (fun k => k.Id)).Pairwise (· < ·) ∧
    (loadTokens ds).tokenKinds.take 7 = reservedKinds ∧
    (∀ k ∈ (loadTokens ds).tokenKinds.drop 7, 7 ≤ k.Id) ∧
    (∀ more : List Str, ∃ t, (loadTokens (ds ++ more)).tokenKinds =
      (loadTokens ds).tokenKinds ++ t) := by
  have hcnt : 7 + declCount ds ≤ 65536 := h
  refine ⟨?_, ?_, ?_, ?_⟩
  · rw [loadTokens_tokenKinds, List.map_append, List.pairwise_append]
    refine ⟨by decide, declKinds_pairwise ds 7 hcnt, ?_⟩
    intro a ha b hb
    rcases List.mem_map.mp hb with ⟨k, hk, rfl⟩
    have hbk := (declKinds_id_bounds ds 7 hcnt k hk).1
    have ha7 : a < 7 := by
      have hres : reservedKinds.map (fun k => k.Id) = [0, 1, 2, 3, 4, 5, 6] := by
        decide
      rw [hres] at ha
      simp at ha
      omega
    omega
  · rw [loadTokens_tokenKinds]
    exact List.take_left' (by decide)
  · rw [loadTokens_tokenKinds, List.drop_left' (by decide)]
    intro k hk
    exact (declKinds_id_bounds ds 7 hcnt k hk).1
  · intro more
    unfold loadTokens
    rw [List.foldl_append]
    exact ⟨_, foldl_loadStep_tokenKinds more (List.foldl loadStep reservedState ds)⟩

/-- Witness for C6 (amended) on the one-line declaration file `EQEQ ==`. -/
theorem c6_registration_order_witness :
    ((loadTokens [s2l "EQEQ =="]).tokenKinds.map (fun k => k.Id)).Pairwise (· < ·) ∧
    (loadTokens [s2l "EQEQ =="]).tokenKinds.take 7 = reservedKinds ∧
    (∀ k ∈ (loadTokens [s2l "EQEQ =="]).tokenKinds.drop 7, 7 ≤ k.Id) ∧
    (∀ more : List Str, ∃ t, (loadTokens ([s2l "EQEQ =="] ++ more)).tokenKinds =
      (loadTokens [s2l "EQEQ =="]).tokenKinds ++ t) :=
  c6_registration_order [s2l "EQEQ =="] (by decide)

/--
C7 counterexample: reading id 999, which was never registered, does not
fail: the map read returns the zero `TokenKind` (id 0, empty name, empty
signature) even though no registered kind has id 999.
-/
theorem c7_get_unregistered_returns_zero :
    mapGet (loadTokens []).tokenKinds 999 = zeroKind ∧
      (loadTokens []).tokenKinds.all (fun k => k.Id != 999) = true := by
  refine ⟨by decide, by decide⟩

/--
Each emitted token carries exactly the line number passed to the
tokenizer; shifting that number shifts every token's `LineNo` by the
same amount and changes nothing else.
-/
lemma tokenizeLineGo_bump (st : LexerState) (ftf : Nat) :
    ∀ (fuel : Nat) (line : Str) (n pos : Nat),
      tokenizeLineGo st ftf fuel line (n + 1) pos =
        mapRes (List.map bumpLine) (tokenizeLineGo st ftf fuel line n pos) := by
  intro fuel
  induction fuel with
  | zero => intro line n pos; rfl
  | succ f ih =>
    intro line n pos
    unfold tokenizeLineGo
    by_cases hp : pos < line.length
    · rw [if_pos hp, if_pos hp]
      cases hgs : goSliceFrom line pos with
      | none => simp only [hgs]; rfl
      | some rest =>
        simp only [hgs]
        cases hft : findTokenGo st ftf rest 1 [] with
        | panic => simp only [hft]; rfl
        | out => simp only [hft]; rfl
        | ok pr =>
          obtain ⟨id, sig0⟩ := pr
          simp only [hft]
          have tail : ∀ sig : tokenSignature,
              (match tokenizeLineGo st ftf f line (n + 1) (pos + sig.length) with
               | .ok toks =>
                 Res.ok ((mapGet st.tokenKinds id).New (n + 1) (pos + 1) sig :: toks)
               | e => e) =
              mapRes (List.map bumpLine)
                (match tokenizeLineGo st ftf f line n (pos + sig.length) with
                 | .ok toks =>
                   Res.ok ((mapGet st.tokenKinds id).New n (pos + 1) sig :: toks)
                 | e => e) := by
            intro sig
            rw [ih line n (pos + sig.length)]
            cases tokenizeLineGo st ftf f line n (pos + sig.length) <;> rfl
          cases hos : (if (id == 1) = true
              then findIdenToken st sig0 else some sig0) with
          | none => simp only [hos]; rfl
          | some sig =>
            simp only [hos]
            exact tail sig
    · rw [if_neg hp, if_neg hp]
      rfl

/--
The file tokenizer and the lines tokenizer agree field by field except
that the file version numbers every token one line higher.
-/
lemma tokenizeFileGo_eq_bump (st : LexerState) (fuel : Nat) :
    ∀ (lines : List Str) (i : Nat),
      tokenizeFileGo st fuel lines i =
        mapRes (List.map bumpLine) (tokenizeLinesGo st fuel lines i) := by
  intro lines
  induction lines with
  | nil => intro i; rfl
  | cons l ls ih =>
    intro i
    unfold tokenizeFileGo tokenizeLinesGo
    dsimp only
    have hline : TokenizeLine st fuel l (i + 1) =
        mapRes (List.map bumpLine) (TokenizeLine st fuel l i) :=
      tokenizeLineGo_bump st fuel fuel l i 0
    rw [hline]
    cases TokenizeLine st fuel l i with
    | panic => rfl
    | out => rfl
    | ok ts =>
      rw [ih (i + 1)]
      cases tokenizeLinesGo st fuel ls (i + 1) with
      | panic => rfl
      | out => rfl
      | ok rest => simp [mapRes, List.map_append]

/--
`TokenizeLines` is the ordered concatenation of per-line results, each
line tokenized with its zero-based index as the line number.
-/
lemma tokenizeLinesGo_join (st : LexerState) (fuel : Nat) :
    ∀ (lines : List Str) (i : Nat),
      tokenizeLinesGo st fuel lines i =
        joinRes ((List.enumFrom i lines).map
          (fun p => TokenizeLine st fuel p.2 p.1)) := by
  intro lines
  induction lines with
  | nil => intro i; rfl
  | cons l ls ih =>
    intro i
    unfold tokenizeLinesGo
    rw [show List.enumFrom i (l :: ls) = (i, l) :: List.enumFrom (i + 1) ls from rfl]
    rw [List.map_cons]
    unfold joinRes
    rw [← ih (i + 1)]

/--
C10: `TokenizeLines` concatenates the per-line token runs with 0-based
line numbers, while `TokenizeFile` on the same lines assigns 1-based
line numbers: the two results agree on every field except `LineNo`,
which is exactly one greater in the file version.
-/
theorem c10_lines_vs_file :
    ∀ (st : LexerState) (fuel : Nat) (lines : List Str),
      TokenizeLines st fuel lines =
        joinRes ((List.enumFrom 0 lines).map
          (fun p => TokenizeLine st fuel p.2 p.1)) ∧
      TokenizeFile st fuel lines =
        mapRes (List.map bumpLine) (TokenizeLines st fuel lines) :=
  fun st fuel lines =>
    ⟨tokenizeLinesGo_join st fuel lines 0, tokenizeFileGo_eq_bump st fuel lines 0⟩

end Panza
